import Mathlib

/-!
Shallow embedding of the geometric calibration and leaf-length measurement
engine of `apps/server/app/api/harvest.py` (AloeMate), together with proofs
settling the specification claims about it.

Coordinates arrive as JSON numbers and are modelled as rationals; every
Euclidean length goes through a real square root exactly where the source
calls `np.sqrt` / `np.linalg.norm`.  Python's `round(x, 1)` is modelled by
`round1`; Python's `int()` on the non-negative warp dimensions is modelled by
the floor.  Fallible source paths (`raise ValueError`) are modelled with
`Except String`.
-/

namespace AloeMate

/-- A 2-D point (a JSON `{x, y}` object; source represents these as dicts or
`np.float32` rows). -/
structure Point where
  x : ℚ
  y : ℚ
deriving DecidableEq, Repr, Inhabited

/-- Squared Euclidean distance between two points (the radicand of the
source's `np.sqrt((x2-x1)**2 + (y2-y1)**2)`). -/
def sqDist (p q : Point) : ℚ :=
  (q.x - p.x) ^ 2 + (q.y - p.y) ^ 2

/-- Euclidean distance, `np.sqrt` of the squared distance, as in
`measure_leaf_length` and `np.linalg.norm` in `apply_quad_warp`. -/
noncomputable def pdist (p q : Point) : ℝ :=
  Real.sqrt ((sqDist p q : ℚ) : ℝ)

/-- Python's `round(x, 1)`: round to the nearest multiple of 1/10.
(Ties, which sit at odd multiples of 1/20, are taken upward here; the float
implementation resolves them by the nearest representable, and no claim in
scope depends on the tie direction.) -/
noncomputable def round1 (x : ℝ) : ℝ :=
  ((round (10 * x) : ℤ) : ℝ) / 10

/-- `pts[np.argmin(pts.map f)]`: first element of `best :: rest` attaining the
minimal value of `f` (`np.argmin` returns the first index of the minimum, and
the running best is replaced only on a strict decrease). -/
def argminP (f : Point → ℚ) : List Point → Point → Point
  | [], best => best
  | a :: t, best => if f a < f best then argminP f t a else argminP f t best

/-- `pts[np.argmax(pts.map f)]`: first element attaining the maximal value. -/
def argmaxP (f : Point → ℚ) : List Point → Point → Point
  | [], best => best
  | a :: t, best => if f best < f a then argmaxP f t a else argmaxP f t best

/-- First element of the list attaining the minimum of `f` (empty list gives
the default point; the source never reaches that case). -/
def selMin (f : Point → ℚ) : List Point → Point
  | [] => default
  | a :: t => argminP f t a

/-- First element of the list attaining the maximum of `f`. -/
def selMax (f : Point → ℚ) : List Point → Point
  | [] => default
  | a :: t => argmaxP f t a

/-- The sum `x + y` used by `order_points` (`s = pts.sum(axis=1)`). -/
def psum (p : Point) : ℚ := p.x + p.y

/-- The difference `y - x` used by `order_points`
(`diff = np.diff(pts, axis=1)`). -/
def pdiff (p : Point) : ℚ := p.y - p.x

/-- The ordered output `[tl, tr, br, bl]` of `order_points`. -/
structure OrderedQuad where
  tl : Point
  tr : Point
  br : Point
  bl : Point
deriving DecidableEq, Repr

/-- The core of `order_points` once the length check has passed:
`tl = pts[argmin(s)]`, `br = pts[argmax(s)]`, `tr = pts[argmin(diff)]`,
`bl = pts[argmax(diff)]`. -/
def order4 (pts : List Point) : OrderedQuad :=
  { tl := selMin psum pts
    br := selMax psum pts
    tr := selMin pdiff pts
    bl := selMax pdiff pts }

/-- `order_points`: raises `ValueError` unless exactly 4 points, then orders
them by the sum/difference rule. -/
def order_points (pts : List Point) : Except String OrderedQuad :=
  if pts.length = 4 then
    .ok (order4 pts)
  else
    .error ("Expected 4 points, got " ++ toString pts.length)

/-- Output-rectangle width of `apply_quad_warp`:
`int(max(np.linalg.norm(tr - tl), np.linalg.norm(br - bl)))`.
The operands are non-negative, so Python's `int` truncation is the floor. -/
noncomputable def outWidth (q : OrderedQuad) : ℤ :=
  ⌊max (pdist q.tl q.tr) (pdist q.bl q.br)⌋

/-- Output-rectangle height of `apply_quad_warp`:
`int(max(np.linalg.norm(bl - tl), np.linalg.norm(br - tr)))`. -/
noncomputable def outHeight (q : OrderedQuad) : ℤ :=
  ⌊max (pdist q.tl q.bl) (pdist q.tr q.br)⌋

/-- The geometric part of `apply_quad_warp`: order the points, then compute
the output dimensions.  The destination rectangle
`(0,0)-(w-1,0)-(w-1,h-1)-(0,h-1)`, the perspective matrix
(`cv2.getPerspectiveTransform(ordered, dst)`), and the resampled image
(`cv2.warpPerspective`) are all functions of this triple.  The source
performs no further check: a width or height of 0 flows straight into the
resampling call. -/
noncomputable def warpGeometry (pts : List Point) :
    Except String (OrderedQuad × ℤ × ℤ) :=
  (order_points pts).map (fun q => (q, outWidth q, outHeight q))

/-- `apply_quad_warp`, parameterised by the resampling backend: `resample`
stands for `cv2.warpPerspective` composed with
`cv2.getPerspectiveTransform` on the ordered quad and destination rectangle
determined by the dimensions. -/
noncomputable def apply_quad_warp {Img : Type} (resample : Img → OrderedQuad × ℤ × ℤ → Img)
    (img : Img) (pts : List Point) : Except String Img :=
  (warpGeometry pts).map (fun g => resample img g)

/-- `TARGET_ASPECT_RATIO = 85.60 / 53.98` in `detect_credit_card`. -/
def targetAspect : ℚ := 85.60 / 53.98

/-- `ASPECT_RATIO_TOLERANCE = 0.3` in `detect_credit_card`. -/
def aspectTol : ℚ := 0.3

/-- An axis-aligned bounding box `(x, y, w, h)` as returned by
`cv2.boundingRect`. -/
structure BoundingRect where
  x : ℚ
  y : ℚ
  w : ℚ
  h : ℚ

/-- The acceptance test of `detect_credit_card` for one contour:
its polygon approximation has exactly 4 vertices and the bounding-box aspect
ratio `w / h if h > 0 else 0` satisfies
`abs(aspect_ratio - TARGET_ASPECT_RATIO) < ASPECT_RATIO_TOLERANCE`. -/
def cardCandidate {C : Type} (approx : C → List Point)
    (bound : List Point → BoundingRect) (c : C) : Bool :=
  (approx c).length = 4 ∧
    |(if (bound (approx c)).h > 0 then (bound (approx c)).w / (bound (approx c)).h else 0)
      - targetAspect| < aspectTol

/-- The `for contour in contours[:10]` loop body of `detect_credit_card`:
return the ordered corners of the first accepted candidate, else keep
scanning. -/
def cardScan {C : Type} (approx : C → List Point)
    (bound : List Point → BoundingRect) : List C → Option OrderedQuad
  | [] => none
  | c :: rest =>
      if cardCandidate approx bound c then some (order4 (approx c))
      else cardScan approx bound rest

/-- `detect_credit_card`, parameterised over the contour data extracted by
the vision library: `area` is `cv2.contourArea`, `approx` is
`cv2.approxPolyDP(contour, 0.02 * cv2.arcLength(contour, True), True)`
reshaped to points, `bound` is `cv2.boundingRect`.  Contours are sorted by
area in decreasing order (`sorted(..., reverse=True)`, a stable sort) and
only the first 10 are examined. -/
def detect_credit_card {C : Type} (area : C → ℚ) (approx : C → List Point)
    (bound : List Point → BoundingRect) (contours : List C) : Option OrderedQuad :=
  cardScan approx bound
    ((contours.insertionSort (fun a b => area b ≤ area a)).take 10)

/-- `CARD_WIDTH_MM = 85.60` (ISO/IEC 7810 ID-1). -/
def CARD_WIDTH_MM : ℝ := 85.60

/-- `MATURITY_CONFIG["L1"] = 18.0`. -/
def L1 : ℝ := 18.0

/-- `MATURITY_CONFIG["L2"] = 25.0`. -/
def L2 : ℝ := 25.0

/-- `card_width_pixels`: Euclidean distance between the first two supplied
card corners (`card_data[0]`, `card_data[1]`), exactly as in
`measure_leaf_length` — the supplied order is used, no re-ordering happens. -/
noncomputable def card_width_pixels (cardData : List Point) : ℝ :=
  pdist (cardData.getD 0 default) (cardData.getD 1 default)

/-- `pixels_per_mm = card_width_pixels / CARD_WIDTH_MM`. -/
noncomputable def pixels_per_mm (cardData : List Point) : ℝ :=
  card_width_pixels cardData / CARD_WIDTH_MM

/-- One leaf's marking: the new `{points: [...]}` curve format or the old
`{base, tip}` straight format. -/
inductive LeafTrace where
  | curve (points : List Point)
  | straight (base tip : Point)

/-- Polyline pixel length: the `for i in range(len(points) - 1)` accumulation
of consecutive Euclidean distances. -/
noncomputable def polyLen : List Point → ℝ
  | p :: q :: rest => pdist p q + polyLen (q :: rest)
  | _ => 0

/-- `pixel_distance` for one leaf: polyline length for the curve format,
base-to-tip distance for the straight format. -/
noncomputable def pixelLen : LeafTrace → ℝ
  | .curve ps => polyLen ps
  | .straight b t => pdist b t

/-- The maturity-stage decision of `measure_leaf_length`:
`avg >= L2` gives MATURE, `elif avg >= L1` INTERMEDIATE, else NOT_MATURE. -/
noncomputable def stage_of (avg : ℝ) : String :=
  if avg ≥ L2 then "MATURE"
  else if avg ≥ L1 then "INTERMEDIATE"
  else "NOT_MATURE"

/-- `retake_message` for the single-leaf case. -/
def oneLeafMsg : String :=
  "Only 1 leaf measured. Measure 3 leaves for better accuracy."

/-- `retake_message` for the high-variation case (bullet list abbreviated). -/
def highVarMsg : String :=
  "High variation between measurements. Try: improve lighting, keep the card flat, keep the full card in frame, avoid camera tilt."

/-- The confidence decision of `measure_leaf_length`: the status starts as
HIGH with no message; one leaf gives LOW plus a message; two or more leaves
compare the standard deviation `np.sqrt(variance)` against 4 and 2, where
`variance = sum((x - mean)**2 for x in lengths) / len(lengths)` and `mean`
is `avg_leaf_length_cm` (the already-rounded average). -/
noncomputable def confidence_of (lengths : List ℝ) (avg : ℝ) : String × Option String :=
  if lengths.length = 1 then
    ("LOW", some oneLeafMsg)
  else if 2 ≤ lengths.length then
    let variance := (lengths.map (fun x => (x - avg) ^ 2)).sum / (lengths.length : ℝ)
    let std_dev := Real.sqrt variance
    if std_dev ≥ 4 then ("LOW", some highVarMsg)
    else if std_dev ≥ 2 then ("MEDIUM", none)
    else ("HIGH", none)
  else ("HIGH", none)

/-- The response body of `measure_leaf_length`. -/
structure MeasureResult where
  leaf_lengths_cm : List ℝ
  avg_leaf_length_cm : ℝ
  stage : String
  confidence_status : String
  retake_message : Option String

/-- `measure_leaf_length` on parsed inputs (image decoding and the optional
`crop_quad` warp do not affect the returned numbers; leaf and card
coordinates are taken relative to the working view).  Follows the source's
validation order: exactly 4 card corners, 1-3 leaves, each curve leaf at
least 3 points; then calibration, per-leaf measurement with `round(., 1)`,
the rounded average, the maturity stage, and the confidence. -/
noncomputable def measure_leaf_length (cardData : List Point)
    (leafData : List LeafTrace) : Except String MeasureResult :=
  if cardData.length ≠ 4 then
    .error "card_corners must contain exactly 4 points"
  else if leafData.length < 1 ∨ leafData.length > 3 then
    .error "Must provide 1-3 leaf measurements"
  else if leafData.any (fun l => match l with
      | .curve ps => ps.length < 3
      | .straight _ _ => false) then
    .error "Leaf must have at least 3 points for curve tracing"
  else if pixels_per_mm cardData ≤ 0 then
    .error "Invalid card calibration: card width cannot be zero"
  else
    let lengths := leafData.map
      (fun l => round1 (pixelLen l / pixels_per_mm cardData / 10))
    let avg := round1 (lengths.sum / (lengths.length : ℝ))
    let conf := confidence_of lengths avg
    .ok { leaf_lengths_cm := lengths
          avg_leaf_length_cm := avg
          stage := stage_of avg
          confidence_status := conf.1
          retake_message := conf.2 }

/-- Spec-side definition (for the refinement comparison of C4): the
population standard deviation of the lengths, centred at their *true*
arithmetic mean — the spec's "population standard deviation σ of the
lengths". -/
noncomputable def popStdDev (lengths : List ℝ) : ℝ :=
  Real.sqrt ((lengths.map
      (fun x => (x - lengths.sum / (lengths.length : ℝ)) ^ 2)).sum /
    (lengths.length : ℝ))

/-- Spec-side definition (for the refinement comparison of C4): the
claimed confidence status as a pure function of the count and σ:
one measurement gives LOW; otherwise `σ ≥ 4` LOW, `2 ≤ σ < 4` MEDIUM,
`σ < 2` HIGH. -/
noncomputable def specConfidence (n : ℕ) (sigma : ℝ) : String :=
  if n = 1 then "LOW"
  else if sigma ≥ 4 then "LOW"
  else if sigma ≥ 2 then "MEDIUM"
  else "HIGH"

/-- View a point as a complex number to reuse the Euclidean norm. -/
noncomputable def toC (p : Point) : ℂ :=
  ⟨(p.x : ℝ), (p.y : ℝ)⟩

/-! ### Lemmas about the argmin/argmax selection -/

lemma argminP_mem (f : Point → ℚ) (t : List Point) (best : Point) :
    argminP f t best ∈ best :: t := by
  induction t generalizing best with
  | nil => simp [argminP]
  | cons a t ih =>
      simp only [argminP]
      split
      · rcases List.mem_cons.mp (ih a) with h | h
        · simp [h]
        · simp [List.mem_cons_of_mem, h]
      · rcases List.mem_cons.mp (ih best) with h | h
        · simp [h]
        · simp [List.mem_cons_of_mem, h]

lemma argminP_le (f : Point → ℚ) (t : List Point) (best : Point) :
    f (argminP f t best) ≤ f best ∧ ∀ q ∈ t, f (argminP f t best) ≤ f q := by
  induction t generalizing best with
  | nil => simp [argminP]
  | cons a t ih =>
      simp only [argminP]
      split
      · rename_i hlt
        refine ⟨le_of_lt (lt_of_le_of_lt (ih a).1 hlt), ?_⟩
        intro q hq
        rcases List.mem_cons.mp hq with rfl | hq
        · exact (ih q).1
        · exact (ih a).2 q hq
      · rename_i hge
        push_neg at hge
        refine ⟨(ih best).1, ?_⟩
        intro q hq
        rcases List.mem_cons.mp hq with rfl | hq
        · exact le_trans (ih best).1 hge
        · exact (ih best).2 q hq

lemma argmaxP_mem (f : Point → ℚ) (t : List Point) (best : Point) :
    argmaxP f t best ∈ best :: t := by
  induction t generalizing best with
  | nil => simp [argmaxP]
  | cons a t ih =>
      simp only [argmaxP]
      split
      · rcases List.mem_cons.mp (ih a) with h | h
        · simp [h]
        · simp [List.mem_cons_of_mem, h]
      · rcases List.mem_cons.mp (ih best) with h | h
        · simp [h]
        · simp [List.mem_cons_of_mem, h]

lemma argmaxP_ge (f : Point → ℚ) (t : List Point) (best : Point) :
    f best ≤ f (argmaxP f t best) ∧ ∀ q ∈ t, f q ≤ f (argmaxP f t best) := by
  induction t generalizing best with
  | nil => simp [argmaxP]
  | cons a t ih =>
      simp only [argmaxP]
      split
      · rename_i hlt
        refine ⟨le_of_lt (lt_of_lt_of_le hlt (ih a).1), ?_⟩
        intro q hq
        rcases List.mem_cons.mp hq with rfl | hq
        · exact (ih q).1
        · exact (ih a).2 q hq
      · rename_i hge
        push_neg at hge
        refine ⟨(ih best).1, ?_⟩
        intro q hq
        rcases List.mem_cons.mp hq with rfl | hq
        · exact le_trans hge (ih best).1
        · exact (ih best).2 q hq

lemma selMin_mem (f : Point → ℚ) (pts : List Point) (h : pts ≠ []) :
    selMin f pts ∈ pts := by
  cases pts with
  | nil => simp at h
  | cons a t => exact argminP_mem f t a

lemma selMin_le (f : Point → ℚ) (pts : List Point) :
    ∀ q ∈ pts, f (selMin f pts) ≤ f q := by
  cases pts with
  | nil => simp
  | cons a t =>
      intro q hq
      rcases List.mem_cons.mp hq with rfl | hq
      · exact (argminP_le f t q).1
      · exact (argminP_le f t a).2 q hq

lemma selMax_mem (f : Point → ℚ) (pts : List Point) (h : pts ≠ []) :
    selMax f pts ∈ pts := by
  cases pts with
  | nil => simp at h
  | cons a t => exact argmaxP_mem f t a

lemma selMax_ge (f : Point → ℚ) (pts : List Point) :
    ∀ q ∈ pts, f q ≤ f (selMax f pts) := by
  cases pts with
  | nil => simp
  | cons a t =>
      intro q hq
      rcases List.mem_cons.mp hq with rfl | hq
      · exact (argmaxP_ge f t q).1
      · exact (argmaxP_ge f t a).2 q hq

/-- When `f` has a strict unique minimiser value at `p`, the first-minimum
selection necessarily returns `p`, whatever the list order. -/
lemma selMin_eq_of_unique (f : Point → ℚ) (pts : List Point) (p : Point)
    (hp : p ∈ pts) (hu : ∀ q ∈ pts, q ≠ p → f p < f q) :
    selMin f pts = p := by
  have hne : pts ≠ [] := by rintro rfl; simp at hp
  by_contra hne2
  have hmem := selMin_mem f pts hne
  have hlt := hu _ hmem hne2
  have hle := selMin_le f pts p hp
  exact absurd (lt_of_lt_of_le hlt hle) (lt_irrefl _)

/-- Dual statement for the first-maximum selection. -/
lemma selMax_eq_of_unique (f : Point → ℚ) (pts : List Point) (p : Point)
    (hp : p ∈ pts) (hu : ∀ q ∈ pts, q ≠ p → f q < f p) :
    selMax f pts = p := by
  have hne : pts ≠ [] := by rintro rfl; simp at hp
  by_contra hne2
  have hmem := selMax_mem f pts hne
  have hlt := hu _ hmem hne2
  have hge := selMax_ge f pts p hp
  exact absurd (lt_of_le_of_lt hge hlt) (lt_irrefl _)

/-- Under unique extremisers, `order4` depends only on the multiset of
points. -/
lemma order4_eq_of_unique (pts : List Point) (a b c d : Point)
    (ha : a ∈ pts) (hua : ∀ q ∈ pts, q ≠ a → psum a < psum q)
    (hb : b ∈ pts) (hub : ∀ q ∈ pts, q ≠ b → psum q < psum b)
    (hc : c ∈ pts) (huc : ∀ q ∈ pts, q ≠ c → pdiff c < pdiff q)
    (hd : d ∈ pts) (hud : ∀ q ∈ pts, q ≠ d → pdiff q < pdiff d) :
    order4 pts = ⟨a, c, b, d⟩ := by
  unfold order4
  rw [selMin_eq_of_unique psum pts a ha hua,
    selMax_eq_of_unique psum pts b hb hub,
    selMin_eq_of_unique pdiff pts c hc huc,
    selMax_eq_of_unique pdiff pts d hd hud]

/-- C2 (counterexample): `order_points` is not invariant under all 24
permutations of 4 geometric corners.  The corners of the 45°-rotated square
`(1,0), (0,1), (2,1), (1,2)` have tied coordinate sums `(1, 1, 3, 3)` and
tied differences, so `np.argmin`'s first-occurrence tie-breaking makes the
result depend on the input order: swapping the first two points changes the
reported top-left corner (and duplicates the top-right slot). -/
theorem C2_order_not_permutation_invariant :
    List.Perm
      [Point.mk 0 1, Point.mk 1 0, Point.mk 2 1, Point.mk 1 2]
      [Point.mk 1 0, Point.mk 0 1, Point.mk 2 1, Point.mk 1 2] ∧
    order_points [Point.mk 0 1, Point.mk 1 0, Point.mk 2 1, Point.mk 1 2] ≠
      order_points [Point.mk 1 0, Point.mk 0 1, Point.mk 2 1, Point.mk 1 2] := by
  constructor
  · exact List.Perm.swap _ _ _
  · norm_num [order_points, order4, selMin, selMax, argminP, argmaxP, psum, pdiff]

/-- C2 (amended): when each of the four extremal corners is strictly unique
(unique smallest and largest coordinate sum, unique smallest and largest
difference `y - x`) — in particular for every non-degenerate axis-aligned
rectangle — `order_points` returns identical output on any permutation of
the points, and consequently `apply_quad_warp` produces an identical result
for every resampling backend. -/
theorem C2_order_permutation_invariant_of_unique (pts pts' : List Point)
    (hperm : pts'.Perm pts) (a b c d : Point)
    (ha : a ∈ pts) (hua : ∀ q ∈ pts, q ≠ a → psum a < psum q)
    (hb : b ∈ pts) (hub : ∀ q ∈ pts, q ≠ b → psum q < psum b)
    (hc : c ∈ pts) (huc : ∀ q ∈ pts, q ≠ c → pdiff c < pdiff q)
    (hd : d ∈ pts) (hud : ∀ q ∈ pts, q ≠ d → pdiff q < pdiff d) :
    order_points pts' = order_points pts ∧
    ∀ (Img : Type) (resample : Img → OrderedQuad × ℤ × ℤ → Img) (img : Img),
      apply_quad_warp resample img pts' = apply_quad_warp resample img pts := by
  have hmem : ∀ q : Point, q ∈ pts' ↔ q ∈ pts := fun q => hperm.mem_iff
  have h4 : order4 pts' = order4 pts := by
    rw [order4_eq_of_unique pts a b c d ha hua hb hub hc huc hd hud,
      order4_eq_of_unique pts' a b c d
        ((hmem a).mpr ha) (fun q hq => hua q ((hmem q).mp hq))
        ((hmem b).mpr hb) (fun q hq => hub q ((hmem q).mp hq))
        ((hmem c).mpr hc) (fun q hq => huc q ((hmem q).mp hq))
        ((hmem d).mpr hd) (fun q hq => hud q ((hmem q).mp hq))]
  have hlen : pts'.length = pts.length := hperm.length_eq
  have hop : order_points pts' = order_points pts := by
    unfold order_points
    rw [hlen, h4]
  exact ⟨hop, fun Img resample img => by
    unfold apply_quad_warp warpGeometry
    rw [hop]⟩

/-- C2 (witness): a concrete quadrilateral with unique extremisers,
permuted, yields identical `order_points` output and an identical warp for
a concrete backend. -/
theorem C2_order_permutation_invariant_witness :
    order_points [Point.mk 5 7, Point.mk 0 0, Point.mk 1 6, Point.mk 4 1] =
      order_points [Point.mk 0 0, Point.mk 4 1, Point.mk 5 7, Point.mk 1 6] ∧
    apply_quad_warp (fun (_ : Unit) _ => ()) ()
        [Point.mk 5 7, Point.mk 0 0, Point.mk 1 6, Point.mk 4 1] =
      apply_quad_warp (fun (_ : Unit) _ => ()) ()
        [Point.mk 0 0, Point.mk 4 1, Point.mk 5 7, Point.mk 1 6] := by
  have h := C2_order_permutation_invariant_of_unique
    [Point.mk 0 0, Point.mk 4 1, Point.mk 5 7, Point.mk 1 6]
    [Point.mk 5 7, Point.mk 0 0, Point.mk 1 6, Point.mk 4 1]
    (by decide)
    (Point.mk 0 0) (Point.mk 5 7) (Point.mk 4 1) (Point.mk 1 6)
    (by norm_num) (by norm_num [psum]) (by norm_num) (by norm_num [psum])
    (by norm_num) (by norm_num [pdiff]) (by norm_num) (by norm_num [pdiff])
  exact ⟨h.1, h.2 Unit (fun _ _ => ()) ()⟩

/-- C3: the maturity stage is a pure function of the average length with
inclusive lower boundaries: below 18.0 NOT_MATURE, from 18.0 up to below
25.0 INTERMEDIATE, from 25.0 MATURE; in particular at 17.9, 18.0, 24.9 and
25.0. -/
theorem C3_maturity_stage_thresholds :
    (∀ a : ℝ, a < 18 → stage_of a = "NOT_MATURE") ∧
    (∀ a : ℝ, 18 ≤ a → a < 25 → stage_of a = "INTERMEDIATE") ∧
    (∀ a : ℝ, 25 ≤ a → stage_of a = "MATURE") ∧
    stage_of 17.9 = "NOT_MATURE" ∧ stage_of 18 = "INTERMEDIATE" ∧
    stage_of 24.9 = "INTERMEDIATE" ∧ stage_of 25 = "MATURE" := by
  have hnot : ∀ a : ℝ, a < 18 → stage_of a = "NOT_MATURE" := by
    intro a h
    unfold stage_of L1 L2
    rw [if_neg (by norm_num; linarith), if_neg (by norm_num; linarith)]
  have hint : ∀ a : ℝ, 18 ≤ a → a < 25 → stage_of a = "INTERMEDIATE" := by
    intro a h1 h2
    unfold stage_of L1 L2
    rw [if_neg (by norm_num; linarith), if_pos (by norm_num; linarith)]
  have hmat : ∀ a : ℝ, 25 ≤ a → stage_of a = "MATURE" := by
    intro a h
    unfold stage_of L2
    rw [if_pos (by norm_num; linarith)]
  exact ⟨hnot, hint, hmat, hnot _ (by norm_num), hint _ (by norm_num) (by norm_num),
    hint _ (by norm_num) (by norm_num), hmat _ (by norm_num)⟩

/-- C3 (witness): the universally quantified clauses instantiated at
concrete averages. -/
theorem C3_maturity_stage_witness :
    stage_of 10 = "NOT_MATURE" ∧ stage_of 20 = "INTERMEDIATE" ∧
    stage_of 30 = "MATURE" :=
  ⟨C3_maturity_stage_thresholds.1 10 (by norm_num),
    C3_maturity_stage_thresholds.2.1 20 (by norm_num) (by norm_num),
    C3_maturity_stage_thresholds.2.2.1 30 (by norm_num)⟩

/-! ### Euclidean facts about `pdist` -/

lemma pdist_eq_abs (p q : Point) : pdist p q = Complex.abs (toC q - toC p) := by
  rw [pdist, Complex.abs_apply, Complex.normSq_apply]
  congr 1
  simp only [toC, Complex.sub_re, Complex.sub_im, sqDist]
  push_cast
  ring

lemma pdist_nonneg (p q : Point) : 0 ≤ pdist p q :=
  Real.sqrt_nonneg _

lemma pdist_comm (p q : Point) : pdist p q = pdist q p := by
  unfold pdist sqDist
  ring_nf

lemma pdist_triangle (p q r : Point) : pdist p r ≤ pdist p q + pdist q r := by
  rw [pdist_eq_abs, pdist_eq_abs, pdist_eq_abs]
  have h : toC r - toC p = (toC q - toC p) + (toC r - toC q) := by ring
  rw [h]
  exact Complex.abs.add_le _ _

/-- The polyline length from `p` through `ps` dominates the straight distance
from `p` to the last point of `ps`. -/
lemma pdist_le_polyLen (ps : List Point) (p last : Point)
    (h : ps.getLast? = some last) : pdist p last ≤ polyLen (p :: ps) := by
  induction ps generalizing p with
  | nil => simp at h
  | cons q rest ih =>
      cases rest with
      | nil =>
          simp only [List.getLast?_singleton, Option.some.injEq] at h
          subst h
          simp [polyLen]
      | cons r rest2 =>
          have hlast : (r :: rest2).getLast? = some last := by
            simpa using h
          calc pdist p last ≤ pdist p q + pdist q last := pdist_triangle p q last
            _ ≤ pdist p q + polyLen (q :: r :: rest2) := by
                have := ih q hlast
                linarith
            _ = polyLen (p :: q :: r :: rest2) := by
                simp [polyLen]

/-- C9: for every curve trace whose first and last points coincide with a
straight trace's base and tip, the curve's measured pixel length is at least
the straight trace's measured pixel length (triangle inequality over the
polyline). -/
theorem C9_curve_length_ge_straight (ps : List Point) (base tip : Point)
    (hhead : ps.head? = some base) (hlast : ps.getLast? = some tip)
    (hlen : 3 ≤ ps.length) :
    pixelLen (.straight base tip) ≤ pixelLen (.curve ps) := by
  cases ps with
  | nil => simp at hhead
  | cons p rest =>
      have hp : p = base := by simpa using hhead
      subst hp
      cases rest with
      | nil => simp at hlen
      | cons q rest2 =>
          have hlast2 : (q :: rest2).getLast? = some tip := by
            simpa using hlast
          simpa [pixelLen] using pdist_le_polyLen (q :: rest2) p tip hlast2

/-- C9 (witness): the straight trace `(0,0) → (3,4)` against the curve trace
`(0,0) → (3,0) → (3,4)` through the same endpoints. -/
theorem C9_curve_length_ge_straight_witness :
    pixelLen (.straight (Point.mk 0 0) (Point.mk 3 4)) ≤
      pixelLen (.curve [Point.mk 0 0, Point.mk 3 0, Point.mk 3 4]) :=
  C9_curve_length_ge_straight
    [Point.mk 0 0, Point.mk 3 0, Point.mk 3 4]
    (Point.mk 0 0) (Point.mk 3 4) rfl rfl (by norm_num)

lemma floor_sqrt_eq (x : ℝ) (n : ℤ) (hn : 0 ≤ n) (h1 : (n : ℝ) ^ 2 ≤ x)
    (h2 : x < ((n : ℝ) + 1) ^ 2) : ⌊Real.sqrt x⌋ = n := by
  rw [Int.floor_eq_iff]
  refine ⟨Real.le_sqrt_of_sq_le h1, ?_⟩
  have hpos : (0 : ℝ) < (n : ℝ) + 1 := by
    have : (0 : ℝ) ≤ (n : ℝ) := by exact_mod_cast hn
    linarith
  calc Real.sqrt x < (n : ℝ) + 1 := (Real.sqrt_lt' hpos).mpr h2
    _ = ((n : ℤ) : ℝ) + 1 := by norm_num

/-- C6 (counterexample): the output width is Python's `int()` truncation of
the maximal horizontal edge, not its rounding.  On the quadrilateral
`(0,0), (6,3), (6,13), (0,10)` both horizontal edges have length
`√45 ≈ 6.708`, so the code computes width 6 while the claimed
`round(max(...))` is 7. -/
theorem C6_width_truncation_counterexample :
    order_points [Point.mk 0 0, Point.mk 6 3, Point.mk 6 13, Point.mk 0 10] =
      .ok ⟨Point.mk 0 0, Point.mk 6 3, Point.mk 6 13, Point.mk 0 10⟩ ∧
    outWidth ⟨Point.mk 0 0, Point.mk 6 3, Point.mk 6 13, Point.mk 0 10⟩ = 6 ∧
    round (max (pdist (Point.mk 0 0) (Point.mk 6 3))
      (pdist (Point.mk 0 10) (Point.mk 6 13))) = 7 := by
  have e1 : pdist (Point.mk 0 0) (Point.mk 6 3) = Real.sqrt 45 := by
    unfold pdist sqDist
    norm_num
  have e2 : pdist (Point.mk 0 10) (Point.mk 6 13) = Real.sqrt 45 := by
    unfold pdist sqDist
    norm_num
  refine ⟨?_, ?_, ?_⟩
  · norm_num [order_points, order4, selMin, selMax, argminP, argmaxP, psum, pdiff]
  · show ⌊max (pdist (Point.mk 0 0) (Point.mk 6 3))
        (pdist (Point.mk 0 10) (Point.mk 6 13))⌋ = 6
    rw [e1, e2, max_self]
    exact floor_sqrt_eq 45 6 (by norm_num) (by norm_num) (by norm_num)
  · rw [e1, e2, max_self, round_eq]
    rw [Int.floor_eq_iff]
    constructor
    · have : (6.5 : ℝ) ≤ Real.sqrt 45 := by
        rw [Real.le_sqrt' (by norm_num)]
        norm_num
      push_cast
      linarith
    · have : Real.sqrt 45 < 7.5 := by
        rw [Real.sqrt_lt' (by norm_num)]
        norm_num
      push_cast
      linarith

/-- C6 (amended): the warp output dimensions are the truncations (floors)
`⌊max(|tr-tl|, |br-bl|)⌋` and `⌊max(|bl-tl|, |br-tr|)⌋`; warping an
axis-aligned rectangle quad spanning `[x0,x1]×[y0,y1]` therefore yields
output dimensions `(⌊x1-x0⌋, ⌊y1-y0⌋)` — exactly `(x1-x0, y1-y0)` whenever
the spans are whole numbers, and within 1 of them in general. -/
theorem C6_axis_aligned_warp_dimensions (x0 x1 y0 y1 : ℚ)
    (hx : x0 < x1) (hy : y0 < y1) :
    order_points [Point.mk x0 y0, Point.mk x1 y0, Point.mk x1 y1, Point.mk x0 y1] =
      .ok ⟨Point.mk x0 y0, Point.mk x1 y0, Point.mk x1 y1, Point.mk x0 y1⟩ ∧
    outWidth ⟨Point.mk x0 y0, Point.mk x1 y0, Point.mk x1 y1, Point.mk x0 y1⟩ =
      ⌊((x1 - x0 : ℚ) : ℝ)⌋ ∧
    outHeight ⟨Point.mk x0 y0, Point.mk x1 y0, Point.mk x1 y1, Point.mk x0 y1⟩ =
      ⌊((y1 - y0 : ℚ) : ℝ)⌋ := by
  set pts := [Point.mk x0 y0, Point.mk x1 y0, Point.mk x1 y1, Point.mk x0 y1] with hpts
  have horder : order4 pts = ⟨Point.mk x0 y0, Point.mk x1 y0, Point.mk x1 y1, Point.mk x0 y1⟩ := by
    apply order4_eq_of_unique
    · show Point.mk x0 y0 ∈ pts
      simp [hpts]
    · intro q hq hne
      simp only [hpts, List.mem_cons, List.not_mem_nil, or_false] at hq
      rcases hq with rfl | rfl | rfl | rfl
      · exact absurd rfl hne
      · simp only [psum]
        linarith
      · simp only [psum]
        linarith
      · simp only [psum]
        linarith
    · show Point.mk x1 y1 ∈ pts
      simp [hpts]
    · intro q hq hne
      simp only [hpts, List.mem_cons, List.not_mem_nil, or_false] at hq
      rcases hq with rfl | rfl | rfl | rfl
      · simp only [psum]
        linarith
      · simp only [psum]
        linarith
      · exact absurd rfl hne
      · simp only [psum]
        linarith
    · show Point.mk x1 y0 ∈ pts
      simp [hpts]
    · intro q hq hne
      simp only [hpts, List.mem_cons, List.not_mem_nil, or_false] at hq
      rcases hq with rfl | rfl | rfl | rfl
      · simp only [pdiff]
        linarith
      · exact absurd rfl hne
      · simp only [pdiff]
        linarith
      · simp only [pdiff]
        linarith
    · show Point.mk x0 y1 ∈ pts
      simp [hpts]
    · intro q hq hne
      simp only [hpts, List.mem_cons, List.not_mem_nil, or_false] at hq
      rcases hq with rfl | rfl | rfl | rfl
      · simp only [pdiff]
        linarith
      · simp only [pdiff]
        linarith
      · simp only [pdiff]
        linarith
      · exact absurd rfl hne
  have ex : pdist (Point.mk x0 y0) (Point.mk x1 y0) = ((x1 - x0 : ℚ) : ℝ) := by
    unfold pdist sqDist
    push_cast
    rw [show ((x1 : ℝ) - x0) ^ 2 + ((y0 : ℝ) - y0) ^ 2 = ((x1 : ℝ) - x0) ^ 2 by ring,
      Real.sqrt_sq (by have hx' : (x0 : ℝ) < x1 := by exact_mod_cast hx
                       linarith)]
  have ex' : pdist (Point.mk x0 y1) (Point.mk x1 y1) = ((x1 - x0 : ℚ) : ℝ) := by
    unfold pdist sqDist
    push_cast
    rw [show ((x1 : ℝ) - x0) ^ 2 + ((y1 : ℝ) - y1) ^ 2 = ((x1 : ℝ) - x0) ^ 2 by ring,
      Real.sqrt_sq (by have hx' : (x0 : ℝ) < x1 := by exact_mod_cast hx
                       linarith)]
  have ey : pdist (Point.mk x0 y0) (Point.mk x0 y1) = ((y1 - y0 : ℚ) : ℝ) := by
    unfold pdist sqDist
    push_cast
    rw [show ((x0 : ℝ) - x0) ^ 2 + ((y1 : ℝ) - y0) ^ 2 = ((y1 : ℝ) - y0) ^ 2 by ring,
      Real.sqrt_sq (by have hy' : (y0 : ℝ) < y1 := by exact_mod_cast hy
                       linarith)]
  have ey' : pdist (Point.mk x1 y0) (Point.mk x1 y1) = ((y1 - y0 : ℚ) : ℝ) := by
    unfold pdist sqDist
    push_cast
    rw [show ((x1 : ℝ) - x1) ^ 2 + ((y1 : ℝ) - y0) ^ 2 = ((y1 : ℝ) - y0) ^ 2 by ring,
      Real.sqrt_sq (by have hy' : (y0 : ℝ) < y1 := by exact_mod_cast hy
                       linarith)]
  refine ⟨?_, ?_, ?_⟩
  · unfold order_points
    rw [if_pos (by simp [hpts])]
    rw [horder]
  · unfold outWidth
    simp only
    rw [ex, ex', max_self]
  · unfold outHeight
    simp only
    rw [ey, ey', max_self]

/-- C6 (witness): the amended dimension statement at the rectangle
`[0,5]×[0,3]`. -/
theorem C6_axis_aligned_warp_dimensions_witness :
    order_points [Point.mk 0 0, Point.mk 5 0, Point.mk 5 3, Point.mk 0 3] =
      .ok ⟨Point.mk 0 0, Point.mk 5 0, Point.mk 5 3, Point.mk 0 3⟩ ∧
    outWidth ⟨Point.mk 0 0, Point.mk 5 0, Point.mk 5 3, Point.mk 0 3⟩ =
      ⌊((5 - 0 : ℚ) : ℝ)⌋ ∧
    outHeight ⟨Point.mk 0 0, Point.mk 5 0, Point.mk 5 3, Point.mk 0 3⟩ =
      ⌊((3 - 0 : ℚ) : ℝ)⌋ :=
  C6_axis_aligned_warp_dimensions 0 5 0 3 (by norm_num) (by norm_num)

/-- C7 (counterexample): `apply_quad_warp` performs no degenerate-quad
check.  On the fully degenerate quadrilateral of four identical points the
computed width and height are both 0, yet the geometric stage succeeds
(`.ok`) and hands the zero-sized raster straight to the resampling backend —
there is no typed `DegenerateQuad` failure anywhere in the code. -/
theorem C7_no_degenerate_quad_error :
    warpGeometry [Point.mk 0 0, Point.mk 0 0, Point.mk 0 0, Point.mk 0 0] =
      .ok (⟨Point.mk 0 0, Point.mk 0 0, Point.mk 0 0, Point.mk 0 0⟩, 0, 0) := by
  have hp : pdist (Point.mk 0 0) (Point.mk 0 0) = 0 := by
    unfold pdist sqDist
    norm_num
  have hq : order4 [Point.mk 0 0, Point.mk 0 0, Point.mk 0 0, Point.mk 0 0] =
      ⟨Point.mk 0 0, Point.mk 0 0, Point.mk 0 0, Point.mk 0 0⟩ := by
    simp [order4, selMin, selMax, argminP, argmaxP]
  unfold warpGeometry order_points
  rw [if_pos (by norm_num)]
  simp only [Except.map, hq, outWidth, outHeight]
  rw [hp, max_self]
  norm_num

/-- C7 (amended): `apply_quad_warp` fails with the typed `ValueError`
`"Expected 4 points"` exactly when the quadrilateral does not contain 4
points, and on every 4-point input — degenerate or not — it succeeds and
returns the resampled output: the code contains no `DegenerateQuad` check
on the computed width/height, and no input crashes the (total) function. -/
theorem C7_wrong_point_count_error (pts : List Point) (Img : Type)
    (resample : Img → OrderedQuad × ℤ × ℤ → Img) (img : Img) :
    (pts.length ≠ 4 → apply_quad_warp resample img pts =
      .error ("Expected 4 points, got " ++ toString pts.length)) ∧
    (pts.length = 4 → apply_quad_warp resample img pts =
      .ok (resample img (order4 pts, outWidth (order4 pts), outHeight (order4 pts)))) := by
  constructor
  · intro h
    unfold apply_quad_warp warpGeometry order_points
    rw [if_neg h]
    rfl
  · intro h
    unfold apply_quad_warp warpGeometry order_points
    rw [if_pos h]
    rfl

/-- C7 (witness): a 3-point input produces the typed wrong-point-count
failure; a 4-point degenerate input still succeeds. -/
theorem C7_wrong_point_count_error_witness :
    apply_quad_warp (fun (_ : Unit) _ => ()) ()
        [Point.mk 0 0, Point.mk 1 1, Point.mk 2 2] =
      .error ("Expected 4 points, got " ++
        toString [Point.mk 0 0, Point.mk 1 1, Point.mk 2 2].length) ∧
    apply_quad_warp (fun (_ : Unit) _ => ()) ()
        [Point.mk 0 0, Point.mk 0 0, Point.mk 0 0, Point.mk 0 0] =
      .ok ((fun (_ : Unit) _ => ()) ()
        (order4 [Point.mk 0 0, Point.mk 0 0, Point.mk 0 0, Point.mk 0 0],
          outWidth (order4 [Point.mk 0 0, Point.mk 0 0, Point.mk 0 0, Point.mk 0 0]),
          outHeight (order4 [Point.mk 0 0, Point.mk 0 0, Point.mk 0 0, Point.mk 0 0]))) :=
  ⟨(C7_wrong_point_count_error [Point.mk 0 0, Point.mk 1 1, Point.mk 2 2]
      Unit (fun _ _ => ()) ()).1 (by norm_num),
    (C7_wrong_point_count_error [Point.mk 0 0, Point.mk 0 0, Point.mk 0 0, Point.mk 0 0]
      Unit (fun _ _ => ()) ()).2 (by norm_num)⟩

/-! ### Evaluating the measurement pipeline once validation passes -/

/-- Unfolding of `measure_leaf_length` on valid input: 4 card corners, 1-3
leaves, curves of at least 3 points, positive calibration. -/
lemma measure_leaf_length_ok (cardData : List Point) (leafData : List LeafTrace)
    (h4 : cardData.length = 4)
    (hn1 : 1 ≤ leafData.length) (hn3 : leafData.length ≤ 3)
    (hcurve : ∀ l ∈ leafData, match l with
      | .curve ps => 3 ≤ ps.length
      | .straight _ _ => True)
    (hppm : 0 < pixels_per_mm cardData) :
    measure_leaf_length cardData leafData =
      .ok { leaf_lengths_cm :=
              leafData.map (fun l => round1 (pixelLen l / pixels_per_mm cardData / 10))
            avg_leaf_length_cm :=
              round1 ((leafData.map (fun l => round1 (pixelLen l / pixels_per_mm cardData / 10))).sum /
                ((leafData.map (fun l => round1 (pixelLen l / pixels_per_mm cardData / 10))).length : ℝ))
            stage := stage_of
              (round1 ((leafData.map (fun l => round1 (pixelLen l / pixels_per_mm cardData / 10))).sum /
                ((leafData.map (fun l => round1 (pixelLen l / pixels_per_mm cardData / 10))).length : ℝ)))
            confidence_status :=
              (confidence_of (leafData.map (fun l => round1 (pixelLen l / pixels_per_mm cardData / 10)))
                (round1 ((leafData.map (fun l => round1 (pixelLen l / pixels_per_mm cardData / 10))).sum /
                  ((leafData.map (fun l => round1 (pixelLen l / pixels_per_mm cardData / 10))).length : ℝ)))).1
            retake_message :=
              (confidence_of (leafData.map (fun l => round1 (pixelLen l / pixels_per_mm cardData / 10)))
                (round1 ((leafData.map (fun l => round1 (pixelLen l / pixels_per_mm cardData / 10))).sum /
                  ((leafData.map (fun l => round1 (pixelLen l / pixels_per_mm cardData / 10))).length : ℝ)))).2 } := by
  have hany : leafData.any (fun l => match l with
      | .curve ps => ps.length < 3
      | .straight _ _ => false) = false := by
    rw [List.any_eq_false]
    intro l hl
    have := hcurve l hl
    cases l with
    | curve ps =>
        simp only at this ⊢
        simpa using this
    | straight b t => simp
  unfold measure_leaf_length
  rw [if_neg (by omega), if_neg (by omega), if_neg (by simp [hany]), if_neg (by linarith)]

/-- C1 (counterexample): the calibration scale reads the *supplied* first
two card corners, never the ordered top edge.  Swapping the 2nd and 3rd
corners of the axis-aligned card `(0,0), (856,0), (856,500), (0,500)` — a
permutation of the same 4 corners — changes `card_width_pixels` from 856
(scale 10 px/mm) to `√982736 ≈ 991.33`, and changes the measured length of
the straight leaf `(0,0) → (3000,0)` from 30.0 cm to 25.9 cm. -/
theorem C1_scale_not_permutation_invariant :
    List.Perm
      [Point.mk 0 0, Point.mk 856 500, Point.mk 856 0, Point.mk 0 500]
      [Point.mk 0 0, Point.mk 856 0, Point.mk 856 500, Point.mk 0 500] ∧
    pixels_per_mm [Point.mk 0 0, Point.mk 856 500, Point.mk 856 0, Point.mk 0 500] ≠
      pixels_per_mm [Point.mk 0 0, Point.mk 856 0, Point.mk 856 500, Point.mk 0 500] ∧
    measure_leaf_length [Point.mk 0 0, Point.mk 856 500, Point.mk 856 0, Point.mk 0 500]
        [.straight (Point.mk 0 0) (Point.mk 3000 0)] ≠
      measure_leaf_length [Point.mk 0 0, Point.mk 856 0, Point.mk 856 500, Point.mk 0 500]
        [.straight (Point.mk 0 0) (Point.mk 3000 0)] := by
  have hs856 : Real.sqrt 732736 = 856 := by
    rw [show (732736 : ℝ) = 856 ^ 2 by norm_num, Real.sqrt_sq (by norm_num)]
  have e1 : pixels_per_mm [Point.mk 0 0, Point.mk 856 0, Point.mk 856 500, Point.mk 0 500] = 10 := by
    unfold pixels_per_mm card_width_pixels CARD_WIDTH_MM pdist sqDist
    norm_num
    rw [hs856]
    norm_num
  have e2 : pixels_per_mm [Point.mk 0 0, Point.mk 856 500, Point.mk 856 0, Point.mk 0 500] =
      Real.sqrt 982736 / 85.6 := by
    unfold pixels_per_mm card_width_pixels CARD_WIDTH_MM pdist sqDist
    norm_num
  have hs1 : (991 : ℝ) < Real.sqrt 982736 := by
    rw [Real.lt_sqrt (by norm_num)]
    norm_num
  have hs2 : Real.sqrt 982736 < 992 := by
    rw [Real.sqrt_lt' (by norm_num)]
    norm_num
  have hspos : (0 : ℝ) < Real.sqrt 982736 := by linarith
  have hppm_ne : pixels_per_mm [Point.mk 0 0, Point.mk 856 500, Point.mk 856 0, Point.mk 0 500] ≠
      pixels_per_mm [Point.mk 0 0, Point.mk 856 0, Point.mk 856 500, Point.mk 0 500] := by
    rw [e1, e2]
    intro h
    have hs : Real.sqrt 982736 = 10 * 85.6 :=
      (div_eq_iff (by norm_num : (85.6 : ℝ) ≠ 0)).mp h
    rw [hs] at hs1
    norm_num at hs1
  refine ⟨by decide, hppm_ne, ?_⟩
  have hlen3000 : pixelLen (.straight (Point.mk 0 0) (Point.mk 3000 0)) = 3000 := by
    show pdist (Point.mk 0 0) (Point.mk 3000 0) = 3000
    unfold pdist
    rw [show ((sqDist (Point.mk 0 0) (Point.mk 3000 0) : ℚ) : ℝ) = 3000 ^ 2 by
        norm_num [sqDist],
      Real.sqrt_sq (by norm_num)]
  have hv1 : round1 (pixelLen (.straight (Point.mk 0 0) (Point.mk 3000 0)) /
      pixels_per_mm [Point.mk 0 0, Point.mk 856 0, Point.mk 856 500, Point.mk 0 500] / 10) = 30 := by
    rw [hlen3000, e1]
    norm_num [round1, round_eq]
  have hv2 : round1 (pixelLen (.straight (Point.mk 0 0) (Point.mk 3000 0)) /
      pixels_per_mm [Point.mk 0 0, Point.mk 856 500, Point.mk 856 0, Point.mk 0 500] / 10) = 25.9 := by
    rw [hlen3000, e2]
    have h10x : 10 * (3000 / (Real.sqrt 982736 / 85.6) / 10) = 256800 / Real.sqrt 982736 := by
      field_simp
      ring
    have hub : 256800 / Real.sqrt 982736 < 259.5 := by
      rw [div_lt_iff₀ hspos]
      nlinarith
    have hlb : (258.5 : ℝ) ≤ 256800 / Real.sqrt 982736 := by
      rw [le_div_iff₀ hspos]
      nlinarith
    have hround : round (256800 / Real.sqrt 982736) = 259 := by
      rw [round_eq, Int.floor_eq_iff]
      constructor
      · push_cast
        linarith
      · push_cast
        linarith
    unfold round1
    rw [h10x, hround]
    norm_num
  have hcurve1 : ∀ l ∈ [LeafTrace.straight (Point.mk 0 0) (Point.mk 3000 0)],
      (match l with
        | LeafTrace.curve ps => 3 ≤ ps.length
        | LeafTrace.straight _ _ => True) := by
    intro l hl
    rcases List.mem_singleton.mp hl with rfl
    trivial
  have hm1 := measure_leaf_length_ok
    [Point.mk 0 0, Point.mk 856 0, Point.mk 856 500, Point.mk 0 500]
    [LeafTrace.straight (Point.mk 0 0) (Point.mk 3000 0)]
    (by norm_num) (by norm_num) (by norm_num) hcurve1 (by rw [e1]; norm_num)
  have hm2 := measure_leaf_length_ok
    [Point.mk 0 0, Point.mk 856 500, Point.mk 856 0, Point.mk 0 500]
    [LeafTrace.straight (Point.mk 0 0) (Point.mk 3000 0)]
    (by norm_num) (by norm_num) (by norm_num) hcurve1
    (by rw [e2]; exact div_pos hspos (by norm_num))
  intro heq
  rw [hm1, hm2] at heq
  simp only [Except.ok.injEq] at heq
  have hL := congrArg MeasureResult.leaf_lengths_cm heq
  simp only [List.map_cons, List.map_nil, List.cons.injEq, and_true] at hL
  rw [hv1, hv2] at hL
  norm_num at hL

/-- C1 (amended): the calibration scale equals the Euclidean distance
between the *first two supplied* card corners divided by the card width
85.60 mm.  It is therefore invariant only under permutations that preserve
the unordered pair of first two corners — in particular swapping them —
and then all measured leaf lengths are preserved as well. -/
theorem C1_scale_uses_first_two_corners (c0 c1 : Point) (rest rest' : List Point)
    (h2 : rest.length = 2) (h2' : rest'.length = 2) (leaves : List LeafTrace) :
    card_width_pixels (c0 :: c1 :: rest) = pdist c0 c1 ∧
    pixels_per_mm (c0 :: c1 :: rest) = pdist c0 c1 / CARD_WIDTH_MM ∧
    pixels_per_mm (c1 :: c0 :: rest') = pixels_per_mm (c0 :: c1 :: rest) ∧
    measure_leaf_length (c1 :: c0 :: rest') leaves =
      measure_leaf_length (c0 :: c1 :: rest) leaves := by
  have hcw : card_width_pixels (c0 :: c1 :: rest) = pdist c0 c1 := rfl
  have hcw' : card_width_pixels (c1 :: c0 :: rest') = pdist c0 c1 := by
    show pdist c1 c0 = pdist c0 c1
    exact pdist_comm c1 c0
  have hppm : pixels_per_mm (c1 :: c0 :: rest') = pixels_per_mm (c0 :: c1 :: rest) := by
    unfold pixels_per_mm
    rw [hcw, hcw']
  have hl1 : (c0 :: c1 :: rest).length = 4 := by simp [h2]
  have hl2 : (c1 :: c0 :: rest').length = 4 := by simp [h2']
  refine ⟨hcw, by unfold pixels_per_mm; rw [hcw], hppm, ?_⟩
  unfold measure_leaf_length
  rw [hl1, hl2, hppm]

/-- C1 (witness): the amended statement at a concrete card and leaf. -/
theorem C1_scale_uses_first_two_corners_witness :
    card_width_pixels [Point.mk 0 0, Point.mk 856 0, Point.mk 856 500, Point.mk 0 500] =
      pdist (Point.mk 0 0) (Point.mk 856 0) ∧
    pixels_per_mm [Point.mk 0 0, Point.mk 856 0, Point.mk 856 500, Point.mk 0 500] =
      pdist (Point.mk 0 0) (Point.mk 856 0) / CARD_WIDTH_MM ∧
    pixels_per_mm [Point.mk 856 0, Point.mk 0 0, Point.mk 856 500, Point.mk 0 500] =
      pixels_per_mm [Point.mk 0 0, Point.mk 856 0, Point.mk 856 500, Point.mk 0 500] ∧
    measure_leaf_length [Point.mk 856 0, Point.mk 0 0, Point.mk 856 500, Point.mk 0 500]
        [.straight (Point.mk 0 0) (Point.mk 100 0)] =
      measure_leaf_length [Point.mk 0 0, Point.mk 856 0, Point.mk 856 500, Point.mk 0 500]
        [.straight (Point.mk 0 0) (Point.mk 100 0)] :=
  C1_scale_uses_first_two_corners (Point.mk 0 0) (Point.mk 856 0)
    [Point.mk 856 500, Point.mk 0 500] [Point.mk 856 500, Point.mk 0 500]
    (by norm_num) (by norm_num) [.straight (Point.mk 0 0) (Point.mk 100 0)]

/-- The polyline length is the sum of the Euclidean distances between
consecutive point pairs. -/
lemma polyLen_eq_zip_sum :
    ∀ ps : List Point,
      polyLen ps = ((ps.zip ps.tail).map (fun pq => pdist pq.1 pq.2)).sum
  | [] => by simp [polyLen]
  | [_] => by simp [polyLen]
  | p :: q :: rest => by
      have ih := polyLen_eq_zip_sum (q :: rest)
      simp only [polyLen, List.tail_cons, List.zip_cons_cons, List.map_cons,
        List.sum_cons] at ih ⊢
      rw [ih]

/-- C5: in the measurement pipeline, the straight pixel length is the
Euclidean base-to-tip distance, the curve pixel length is the sum of
Euclidean distances of consecutive traced points, and each reported length
in cm is the pixel length divided by `pixels_per_mm`, divided by 10, then
rounded to 1 decimal (`round1`). -/
theorem C5_leaf_length_algorithm (cardData : List Point) (leaves : List LeafTrace)
    (res : MeasureResult) (h : measure_leaf_length cardData leaves = .ok res) :
    res.leaf_lengths_cm =
      leaves.map (fun l => round1 (pixelLen l / pixels_per_mm cardData / 10)) ∧
    (∀ b t : Point, pixelLen (.straight b t) = pdist b t) ∧
    (∀ ps : List Point, pixelLen (.curve ps) =
      ((ps.zip ps.tail).map (fun pq => pdist pq.1 pq.2)).sum) := by
  refine ⟨?_, fun b t => rfl, fun ps => polyLen_eq_zip_sum ps⟩
  unfold measure_leaf_length at h
  split at h
  · exact absurd h (by simp)
  split at h
  · exact absurd h (by simp)
  split at h
  · exact absurd h (by simp)
  split at h
  · exact absurd h (by simp)
  simp only [Except.ok.injEq] at h
  rw [← h]

/-! ### A concrete evaluation of the pipeline, shared by several witnesses -/

lemma pdist_x_axis (a : ℚ) (ha : 0 ≤ a) :
    pdist (Point.mk 0 0) (Point.mk a 0) = (a : ℝ) := by
  unfold pdist
  rw [show ((sqDist (Point.mk 0 0) (Point.mk a 0) : ℚ) : ℝ) = ((a : ℝ)) ^ 2 by
      push_cast [sqDist]
      ring,
    Real.sqrt_sq (by exact_mod_cast ha)]

lemma ppm_example :
    pixels_per_mm [Point.mk 0 0, Point.mk 856 0, Point.mk 856 500, Point.mk 0 500] = 10 := by
  show pdist (Point.mk 0 0) (Point.mk 856 0) / CARD_WIDTH_MM = 10
  rw [pdist_x_axis 856 (by norm_num)]
  unfold CARD_WIDTH_MM
  norm_num

/-- Full evaluation of `measure_leaf_length` on the card
`(0,0), (856,0), (856,500), (0,500)` (10 px/mm) and the two straight leaves
`(0,0) → (3000,0)` and `(0,0) → (2000,0)`: lengths 30.0 and 20.0 cm, average
25.0, stage MATURE, and — the spread being 5 ≥ 4 — confidence LOW with a
retake message. -/
lemma measure_example :
    measure_leaf_length [Point.mk 0 0, Point.mk 856 0, Point.mk 856 500, Point.mk 0 500]
      [.straight (Point.mk 0 0) (Point.mk 3000 0), .straight (Point.mk 0 0) (Point.mk 2000 0)] =
    .ok { leaf_lengths_cm := [30, 20]
          avg_leaf_length_cm := 25
          stage := "MATURE"
          confidence_status := "LOW"
          retake_message := some highVarMsg } := by
  rw [measure_leaf_length_ok _ _ (by norm_num) (by norm_num) (by norm_num)
    (by intro l hl
        rcases List.mem_cons.mp hl with rfl | hl2
        · trivial
        · rcases List.mem_singleton.mp hl2 with rfl
          trivial)
    (by rw [ppm_example]; norm_num)]
  have hL : [LeafTrace.straight (Point.mk 0 0) (Point.mk 3000 0),
        LeafTrace.straight (Point.mk 0 0) (Point.mk 2000 0)].map
      (fun l => round1 (pixelLen l /
        pixels_per_mm [Point.mk 0 0, Point.mk 856 0, Point.mk 856 500, Point.mk 0 500] / 10)) =
      [(30 : ℝ), 20] := by
    rw [ppm_example]
    simp only [List.map_cons, List.map_nil]
    rw [show pixelLen (.straight (Point.mk 0 0) (Point.mk 3000 0)) =
        pdist (Point.mk 0 0) (Point.mk 3000 0) from rfl,
      show pixelLen (.straight (Point.mk 0 0) (Point.mk 2000 0)) =
        pdist (Point.mk 0 0) (Point.mk 2000 0) from rfl,
      pdist_x_axis 3000 (by norm_num), pdist_x_axis 2000 (by norm_num)]
    norm_num [round1, round_eq]
  rw [hL]
  have havg : round1 (([(30 : ℝ), 20]).sum / (([(30 : ℝ), 20]).length : ℝ)) = 25 := by
    simp only [List.sum_cons, List.sum_nil, List.length_cons, List.length_nil]
    norm_num [round1, round_eq]
  rw [havg]
  have hstage : stage_of 25 = "MATURE" := by
    unfold stage_of L2
    rw [if_pos (by norm_num)]
  have hconf : confidence_of [(30 : ℝ), 20] 25 = ("LOW", some highVarMsg) := by
    unfold confidence_of
    rw [if_neg (by norm_num), if_pos (by norm_num)]
    simp only [List.map_cons, List.map_nil, List.sum_cons, List.sum_nil,
      List.length_cons, List.length_nil]
    have harg : ((((30 : ℝ) - 25) ^ 2 + (((20 : ℝ) - 25) ^ 2 + 0)) /
        (((0 : ℕ) + 1 + 1 : ℕ) : ℝ)) = 25 := by
      norm_num
    simp only [harg]
    rw [show Real.sqrt 25 = 5 from by
      rw [show (25 : ℝ) = 5 ^ 2 by norm_num, Real.sqrt_sq (by norm_num)]]
    rw [if_pos (by norm_num)]
  rw [hstage, hconf]

/-- C5 (witness): the length algorithm at the shared concrete example, and
the two trace forms at concrete points. -/
theorem C5_leaf_length_algorithm_witness :
    ([(30 : ℝ), 20] : List ℝ) =
      [LeafTrace.straight (Point.mk 0 0) (Point.mk 3000 0),
        LeafTrace.straight (Point.mk 0 0) (Point.mk 2000 0)].map
        (fun l => round1 (pixelLen l /
          pixels_per_mm [Point.mk 0 0, Point.mk 856 0, Point.mk 856 500, Point.mk 0 500] / 10)) ∧
    pixelLen (.straight (Point.mk 1 2) (Point.mk 4 6)) = pdist (Point.mk 1 2) (Point.mk 4 6) ∧
    pixelLen (.curve [Point.mk 0 0, Point.mk 1 1, Point.mk 2 0]) =
      (([Point.mk 0 0, Point.mk 1 1, Point.mk 2 0].zip
        [Point.mk 0 0, Point.mk 1 1, Point.mk 2 0].tail).map
          (fun pq => pdist pq.1 pq.2)).sum :=
  ⟨(C5_leaf_length_algorithm _ _ _ measure_example).1,
    (C5_leaf_length_algorithm _ _ _ measure_example).2.1 (Point.mk 1 2) (Point.mk 4 6),
    (C5_leaf_length_algorithm _ _ _ measure_example).2.2
      [Point.mk 0 0, Point.mk 1 1, Point.mk 2 0]⟩

/-- C10: every per-leaf length is rounded to 1 decimal before aggregation;
the reported average is the mean of the rounded lengths, rounded again; and
both the maturity stage and the confidence standard deviation are computed
from the rounded lengths, with the twice-rounded average as the centre of
the variance — not from the raw pixel-derived lengths. -/
theorem C10_rounding_before_aggregation (cardData : List Point)
    (leaves : List LeafTrace) (res : MeasureResult)
    (h : measure_leaf_length cardData leaves = .ok res) :
    res.leaf_lengths_cm =
      leaves.map (fun l => round1 (pixelLen l / pixels_per_mm cardData / 10)) ∧
    res.avg_leaf_length_cm =
      round1 (res.leaf_lengths_cm.sum / (res.leaf_lengths_cm.length : ℝ)) ∧
    res.stage = stage_of res.avg_leaf_length_cm ∧
    (2 ≤ res.leaf_lengths_cm.length →
      res.confidence_status =
        (if Real.sqrt ((res.leaf_lengths_cm.map
              (fun x => (x - res.avg_leaf_length_cm) ^ 2)).sum /
            (res.leaf_lengths_cm.length : ℝ)) ≥ 4 then "LOW"
         else if Real.sqrt ((res.leaf_lengths_cm.map
              (fun x => (x - res.avg_leaf_length_cm) ^ 2)).sum /
            (res.leaf_lengths_cm.length : ℝ)) ≥ 2 then "MEDIUM"
         else "HIGH")) := by
  unfold measure_leaf_length at h
  split at h
  · exact absurd h (by simp)
  split at h
  · exact absurd h (by simp)
  split at h
  · exact absurd h (by simp)
  split at h
  · exact absurd h (by simp)
  simp only [Except.ok.injEq] at h
  subst h
  dsimp only
  refine ⟨rfl, rfl, rfl, ?_⟩
  intro hn
  unfold confidence_of
  rw [if_neg (by omega), if_pos hn]
  dsimp only
  split
  · rfl
  split
  · rfl
  · rfl

/-- C10 (witness): the aggregation equations at the shared concrete
example. -/
theorem C10_rounding_before_aggregation_witness :
    ([(30 : ℝ), 20] : List ℝ) =
      [LeafTrace.straight (Point.mk 0 0) (Point.mk 3000 0),
        LeafTrace.straight (Point.mk 0 0) (Point.mk 2000 0)].map
        (fun l => round1 (pixelLen l /
          pixels_per_mm [Point.mk 0 0, Point.mk 856 0, Point.mk 856 500, Point.mk 0 500] / 10)) ∧
    (25 : ℝ) = round1 (([(30 : ℝ), 20]).sum / (([(30 : ℝ), 20]).length : ℝ)) ∧
    "MATURE" = stage_of 25 ∧
    "LOW" = (if Real.sqrt ((([(30 : ℝ), 20]).map (fun x => (x - 25) ^ 2)).sum /
          (([(30 : ℝ), 20]).length : ℝ)) ≥ 4 then "LOW"
        else if Real.sqrt ((([(30 : ℝ), 20]).map (fun x => (x - 25) ^ 2)).sum /
          (([(30 : ℝ), 20]).length : ℝ)) ≥ 2 then "MEDIUM"
        else "HIGH") :=
  ⟨(C10_rounding_before_aggregation _ _ _ measure_example).1,
    (C10_rounding_before_aggregation _ _ _ measure_example).2.1,
    (C10_rounding_before_aggregation _ _ _ measure_example).2.2.1,
    (C10_rounding_before_aggregation _ _ _ measure_example).2.2.2 (by norm_num)⟩

/-- The detection loop is a first-match search. -/
lemma cardScan_eq_find {C : Type} (approx : C → List Point)
    (bound : List Point → BoundingRect) (l : List C) :
    cardScan approx bound l =
      (l.find? (cardCandidate approx bound)).map (fun c => order4 (approx c)) := by
  induction l with
  | nil => rfl
  | cons c rest ih =>
      unfold cardScan
      by_cases h : cardCandidate approx bound c
      · simp [List.find?_cons, h]
      · simp only [List.find?_cons, h, Bool.false_eq_true, if_false]
        rw [ih]

/-- C8: `detect_credit_card` never returns an error (it is a total
`Option`-valued function of the extracted contour data): contours are
scanned in decreasing area order, at most the 10 largest are examined, the
first candidate whose 4-vertex polygon approximation has bounding-box
aspect ratio within tolerance 0.3 of 85.60/53.98 is returned with its
points ordered by the sum/difference rule, and `none` is returned exactly
when no candidate among the top 10 qualifies. -/
theorem C8_detector_semantics (C : Type) (area : C → ℚ) (approx : C → List Point)
    (bound : List Point → BoundingRect) (contours : List C) :
    List.Perm (contours.insertionSort (fun a b => area b ≤ area a)) contours ∧
    (contours.insertionSort (fun a b => area b ≤ area a)).Sorted
      (fun a b => area b ≤ area a) ∧
    detect_credit_card area approx bound contours =
      (((contours.insertionSort (fun a b => area b ≤ area a)).take 10).find?
        (cardCandidate approx bound)).map (fun c => order4 (approx c)) ∧
    (detect_credit_card area approx bound contours = none ↔
      ∀ c ∈ (contours.insertionSort (fun a b => area b ≤ area a)).take 10,
        ¬ cardCandidate approx bound c = true) := by
  haveI htot : IsTotal C (fun a b => area b ≤ area a) :=
    ⟨fun a b => le_total (area b) (area a)⟩
  haveI htrans : IsTrans C (fun a b => area b ≤ area a) :=
    ⟨fun _ _ _ hab hbc => le_trans hbc hab⟩
  refine ⟨List.perm_insertionSort _ _, List.sorted_insertionSort _ _, ?_, ?_⟩
  · exact cardScan_eq_find approx bound _
  · rw [show detect_credit_card area approx bound contours =
        cardScan approx bound
          ((contours.insertionSort (fun a b => area b ≤ area a)).take 10) from rfl,
      cardScan_eq_find approx bound]
    rw [Option.map_eq_none']
    exact List.find?_eq_none

/-! ### Arithmetic support for the confidence-threshold analysis (C4) -/

/-- Rounding to one decimal moves a value by at most 1/20. -/
lemma abs_round1_sub_le (x : ℝ) : |round1 x - x| ≤ 1 / 20 := by
  unfold round1
  have h := abs_sub_round (10 * x)
  rw [abs_sub_comm] at h
  have heq : ((round (10 * x) : ℤ) : ℝ) / 10 - x =
      (((round (10 * x) : ℤ) : ℝ) - 10 * x) / 10 := by ring
  rw [heq, abs_div]
  rw [show |(10 : ℝ)| = 10 by norm_num]
  linarith

/-- Rounding a third-integer multiple of 1/10 to one decimal moves it by at
most 1/30 (the fractional part of `s/3` is 0, 1/3 or 2/3). -/
lemma abs_round1_third (s : ℤ) :
    |round1 ((s : ℝ) / 30) - (s : ℝ) / 30| ≤ 1 / 30 := by
  have hinner : |((round ((s : ℝ) / 3) : ℤ) : ℝ) - (s : ℝ) / 3| ≤ 1 / 3 := by
    obtain ⟨k, r, hr, rfl⟩ : ∃ k r : ℤ, (r = 0 ∨ r = 1 ∨ r = 2) ∧ s = 3 * k + r :=
      ⟨s / 3, s % 3, by omega, by omega⟩
    have hsplit : ((3 * k + r : ℤ) : ℝ) / 3 = (r : ℝ) / 3 + (k : ℤ) := by
      push_cast
      ring
    rw [hsplit, round_add_int]
    rcases hr with rfl | rfl | rfl
    · rw [show ((0 : ℤ) : ℝ) / 3 = 0 by norm_num, round_zero]
      push_cast
      norm_num
    · rw [show ((1 : ℤ) : ℝ) / 3 = 1 / 3 by norm_num,
        show round ((1 : ℝ) / 3) = 0 by
          rw [round_eq]
          norm_num]
      push_cast
      rw [abs_of_nonpos (by linarith)]
      linarith
    · rw [show ((2 : ℤ) : ℝ) / 3 = 2 / 3 by norm_num,
        show round ((2 : ℝ) / 3) = 1 by
          rw [round_eq]
          norm_num]
      push_cast
      rw [abs_of_nonneg (by linarith)]
      linarith
  unfold round1
  have h10 : 10 * ((s : ℝ) / 30) = (s : ℝ) / 3 := by ring
  rw [h10]
  have heq : ((round ((s : ℝ) / 3) : ℤ) : ℝ) / 10 - (s : ℝ) / 30 =
      (((round ((s : ℝ) / 3) : ℤ) : ℝ) - (s : ℝ) / 3) / 10 := by ring
  rw [heq, abs_div, show |(10 : ℝ)| = 10 by norm_num]
  linarith

/-- No integer square is one less than the square of an integer `≥ 2`. -/
lemma sq_ne_pred_sq (d f : ℤ) (hf : 2 ≤ f) (h : d ^ 2 = f ^ 2 - 1) : False := by
  have h1 : (f - d) * (f + d) = 1 := by linear_combination -h
  rcases Int.mul_eq_one_iff_eq_one_or_neg_one.mp h1 with ⟨ha, hb⟩ | ⟨ha, hb⟩ <;> omega

/-- For two one-decimal measurements the code's variance (centred at the
rounded mean) crosses the threshold `f²/400` only together with the
population variance: the gap is at most 1/400 and `f² - 1` is not an
integer square. -/
lemma pair_no_crossing (d : ℤ) (d2 : ℝ) (_h0 : 0 ≤ d2) (hle : d2 ≤ 1 / 400)
    (f : ℤ) (hf : 2 ≤ f)
    (h : (f : ℝ) ^ 2 / 400 ≤ ((d : ℝ) ^ 2) / 400 + d2) :
    (f : ℝ) ^ 2 / 400 ≤ ((d : ℝ) ^ 2) / 400 := by
  by_contra hlt
  push_neg at hlt
  have hub : d ^ 2 < f ^ 2 := by
    have : ((d : ℝ) ^ 2) < (f : ℝ) ^ 2 := by linarith
    exact_mod_cast this
  have hlb : (f ^ 2 : ℤ) - 1 ≤ d ^ 2 := by
    have : ((f : ℝ) ^ 2) - 1 ≤ ((d : ℝ) ^ 2) := by linarith
    exact_mod_cast this
  exact sq_ne_pred_sq d f hf (by omega)

/-- For three one-decimal measurements the code's variance (centred at the
twice-rounded mean) crosses the threshold `K/900` (`K` even) only together
with the population variance: the gap is at most 1/900 and `900·w` is the
even integer `2(u² + uv + v²)`. -/
lemma triple_no_crossing (u v : ℤ) (d2 : ℝ) (_h0 : 0 ≤ d2) (hle : d2 ≤ 1 / 900)
    (K : ℤ) (hK : K % 2 = 0)
    (h : (K : ℝ) / 900 ≤ ((u ^ 2 + u * v + v ^ 2 : ℤ) : ℝ) / 450 + d2) :
    (K : ℝ) / 900 ≤ ((u ^ 2 + u * v + v ^ 2 : ℤ) : ℝ) / 450 := by
  by_contra hlt
  push_neg at hlt
  have hub : (u ^ 2 + u * v + v ^ 2) * 2 < K := by
    have : ((u ^ 2 + u * v + v ^ 2 : ℤ) : ℝ) * 2 < K := by linarith
    exact_mod_cast this
  have hlb : (K : ℤ) - 1 ≤ (u ^ 2 + u * v + v ^ 2) * 2 := by
    have : (K : ℝ) - 1 ≤ ((u ^ 2 + u * v + v ^ 2 : ℤ) : ℝ) * 2 := by linarith
    exact_mod_cast this
  omega

/-- Two one-decimal measurements: the code's confidence (centred at the
rounded mean `m`) equals the spec's confidence from the population σ, and
the guidance message is present exactly in the LOW case. -/
lemma confidence_pair (p q : ℤ) (m : ℝ)
    (hm : |m - ((p : ℝ) / 10 + (q : ℝ) / 10) / 2| ≤ 1 / 20) :
    (confidence_of [(p : ℝ) / 10, (q : ℝ) / 10] m).1 =
      specConfidence 2 (popStdDev [(p : ℝ) / 10, (q : ℝ) / 10]) ∧
    ((confidence_of [(p : ℝ) / 10, (q : ℝ) / 10] m).2 ≠ none ↔
      (confidence_of [(p : ℝ) / 10, (q : ℝ) / 10] m).1 = "LOW") := by
  unfold confidence_of specConfidence popStdDev
  simp only [List.map_cons, List.map_nil, List.sum_cons, List.sum_nil,
    List.length_cons, List.length_nil]
  rw [if_neg (show ¬((0 : ℕ) + 1 + 1 = 1) by norm_num),
    if_pos (show 2 ≤ (0 : ℕ) + 1 + 1 by norm_num),
    if_neg (show ¬((2 : ℕ) = 1) by norm_num)]
  set x : ℝ := (p : ℝ) / 10 with hxdef
  set y : ℝ := (q : ℝ) / 10 with hydef
  set μ : ℝ := (x + (y + 0)) / (((0 : ℕ) + 1 + 1 : ℕ) : ℝ) with hμdef
  set v : ℝ := ((x - m) ^ 2 + ((y - m) ^ 2 + 0)) / (((0 : ℕ) + 1 + 1 : ℕ) : ℝ) with hvdef
  set w : ℝ := ((x - μ) ^ 2 + ((y - μ) ^ 2 + 0)) / (((0 : ℕ) + 1 + 1 : ℕ) : ℝ) with hwdef
  have hcast : ((((0 : ℕ) + 1 + 1 : ℕ)) : ℝ) = 2 := by norm_num
  have hμ2 : μ = (x + y) / 2 := by rw [hμdef, hcast]; ring
  have hveq : v = w + (m - μ) ^ 2 := by
    rw [hvdef, hwdef, hcast, hμ2]
    ring
  have hwval : w = ((p - q : ℤ) : ℝ) ^ 2 / 400 := by
    rw [hwdef, hcast, hμ2, hxdef, hydef]
    push_cast
    ring
  have hδ2 : (m - μ) ^ 2 ≤ 1 / 400 := by
    rw [hμ2, hxdef, hydef]
    rcases abs_le.mp hm with ⟨hl, hr⟩
    nlinarith [hl, hr]
  have hv0 : 0 ≤ v := by
    rw [hveq, hwval]
    positivity
  have hw0 : 0 ≤ w := by rw [hwval]; positivity
  have hd20 : 0 ≤ (m - μ) ^ 2 := sq_nonneg _
  have h16 : 16 ≤ v ↔ 16 ≤ w := by
    constructor
    · intro h
      have := pair_no_crossing (p - q) ((m - μ) ^ 2) hd20 hδ2 80 (by norm_num)
        (by rw [hveq, hwval] at h; push_cast at h ⊢; linarith)
      rw [hwval]
      push_cast at this ⊢
      linarith
    · intro h
      rw [hveq]
      linarith
  have h4 : 4 ≤ v ↔ 4 ≤ w := by
    constructor
    · intro h
      have := pair_no_crossing (p - q) ((m - μ) ^ 2) hd20 hδ2 40 (by norm_num)
        (by rw [hveq, hwval] at h; push_cast at h ⊢; linarith)
      rw [hwval]
      push_cast at this ⊢
      linarith
    · intro h
      rw [hveq]
      linarith
  have hs16 : (Real.sqrt v ≥ 4) ↔ (Real.sqrt w ≥ 4) := by
    rw [ge_iff_le, ge_iff_le, Real.le_sqrt (by norm_num) hv0, Real.le_sqrt (by norm_num) hw0]
    norm_num [h16]
  have hs4 : (Real.sqrt v ≥ 2) ↔ (Real.sqrt w ≥ 2) := by
    rw [ge_iff_le, ge_iff_le, Real.le_sqrt (by norm_num) hv0, Real.le_sqrt (by norm_num) hw0]
    norm_num [h4]
  by_cases hc1 : Real.sqrt w ≥ 4
  · rw [if_pos (show Real.sqrt v ≥ 4 from hs16.mpr hc1),
      if_pos (show Real.sqrt w ≥ 4 from hc1)]
    simp
  · rw [if_neg (show ¬(Real.sqrt v ≥ 4) from fun hcon => hc1 (hs16.mp hcon)),
      if_neg (show ¬(Real.sqrt w ≥ 4) from hc1)]
    by_cases hc2 : Real.sqrt w ≥ 2
    · rw [if_pos (show Real.sqrt v ≥ 2 from hs4.mpr hc2),
        if_pos (show Real.sqrt w ≥ 2 from hc2)]
      simp
    · rw [if_neg (show ¬(Real.sqrt v ≥ 2) from fun hcon => hc2 (hs4.mp hcon)),
        if_neg (show ¬(Real.sqrt w ≥ 2) from hc2)]
      simp

/-- Three one-decimal measurements: the code's confidence (centred at the
rounded mean `m`) equals the spec's confidence from the population σ, and
the guidance message is present exactly in the LOW case. -/
lemma confidence_triple (p q r : ℤ) (m : ℝ)
    (hm : |m - ((p : ℝ) / 10 + (q : ℝ) / 10 + (r : ℝ) / 10) / 3| ≤ 1 / 30) :
    (confidence_of [(p : ℝ) / 10, (q : ℝ) / 10, (r : ℝ) / 10] m).1 =
      specConfidence 3 (popStdDev [(p : ℝ) / 10, (q : ℝ) / 10, (r : ℝ) / 10]) ∧
    ((confidence_of [(p : ℝ) / 10, (q : ℝ) / 10, (r : ℝ) / 10] m).2 ≠ none ↔
      (confidence_of [(p : ℝ) / 10, (q : ℝ) / 10, (r : ℝ) / 10] m).1 = "LOW") := by
  unfold confidence_of specConfidence popStdDev
  simp only [List.map_cons, List.map_nil, List.sum_cons, List.sum_nil,
    List.length_cons, List.length_nil]
  rw [if_neg (show ¬((0 : ℕ) + 1 + 1 + 1 = 1) by norm_num),
    if_pos (show 2 ≤ (0 : ℕ) + 1 + 1 + 1 by norm_num),
    if_neg (show ¬((3 : ℕ) = 1) by norm_num)]
  set x : ℝ := (p : ℝ) / 10 with hxdef
  set y : ℝ := (q : ℝ) / 10 with hydef
  set z : ℝ := (r : ℝ) / 10 with hzdef
  set μ : ℝ := (x + (y + (z + 0))) / (((0 : ℕ) + 1 + 1 + 1 : ℕ) : ℝ) with hμdef
  set v : ℝ := ((x - m) ^ 2 + ((y - m) ^ 2 + ((z - m) ^ 2 + 0))) /
    (((0 : ℕ) + 1 + 1 + 1 : ℕ) : ℝ) with hvdef
  set w : ℝ := ((x - μ) ^ 2 + ((y - μ) ^ 2 + ((z - μ) ^ 2 + 0))) /
    (((0 : ℕ) + 1 + 1 + 1 : ℕ) : ℝ) with hwdef
  have hcast : ((((0 : ℕ) + 1 + 1 + 1 : ℕ)) : ℝ) = 3 := by norm_num
  have hμ3 : μ = (x + y + z) / 3 := by rw [hμdef, hcast]; ring
  have hveq : v = w + (m - μ) ^ 2 := by
    rw [hvdef, hwdef, hcast, hμ3]
    ring
  have hwval : w = (((p - q) ^ 2 + (p - q) * (q - r) + (q - r) ^ 2 : ℤ) : ℝ) / 450 := by
    rw [hwdef, hcast, hμ3, hxdef, hydef, hzdef]
    push_cast
    ring
  have hδ2 : (m - μ) ^ 2 ≤ 1 / 900 := by
    rw [hμ3, hxdef, hydef, hzdef]
    rcases abs_le.mp hm with ⟨hl, hr⟩
    nlinarith [hl, hr]
  have hv0 : 0 ≤ v := by
    rw [hveq, hwval]
    have : (0 : ℝ) ≤ (((p - q) ^ 2 + (p - q) * (q - r) + (q - r) ^ 2 : ℤ) : ℝ) := by
      have hz2 : (0 : ℤ) ≤ (p - q) ^ 2 + (p - q) * (q - r) + (q - r) ^ 2 := by nlinarith
      exact_mod_cast hz2
    positivity
  have hw0 : 0 ≤ w := by
    rw [hwval]
    have hz2 : (0 : ℤ) ≤ (p - q) ^ 2 + (p - q) * (q - r) + (q - r) ^ 2 := by nlinarith
    have : (0 : ℝ) ≤ (((p - q) ^ 2 + (p - q) * (q - r) + (q - r) ^ 2 : ℤ) : ℝ) := by
      exact_mod_cast hz2
    positivity
  have hd20 : 0 ≤ (m - μ) ^ 2 := sq_nonneg _
  have h16 : 16 ≤ v ↔ 16 ≤ w := by
    constructor
    · intro h
      have := triple_no_crossing (p - q) (q - r) ((m - μ) ^ 2) hd20 hδ2 14400
        (by norm_num)
        (by rw [hveq, hwval] at h; push_cast at h ⊢; linarith)
      rw [hwval]
      push_cast at this ⊢
      linarith
    · intro h
      rw [hveq]
      linarith
  have h4 : 4 ≤ v ↔ 4 ≤ w := by
    constructor
    · intro h
      have := triple_no_crossing (p - q) (q - r) ((m - μ) ^ 2) hd20 hδ2 3600
        (by norm_num)
        (by rw [hveq, hwval] at h; push_cast at h ⊢; linarith)
      rw [hwval]
      push_cast at this ⊢
      linarith
    · intro h
      rw [hveq]
      linarith
  have hs16 : (Real.sqrt v ≥ 4) ↔ (Real.sqrt w ≥ 4) := by
    rw [ge_iff_le, ge_iff_le, Real.le_sqrt (by norm_num) hv0, Real.le_sqrt (by norm_num) hw0]
    norm_num [h16]
  have hs4 : (Real.sqrt v ≥ 2) ↔ (Real.sqrt w ≥ 2) := by
    rw [ge_iff_le, ge_iff_le, Real.le_sqrt (by norm_num) hv0, Real.le_sqrt (by norm_num) hw0]
    norm_num [h4]
  by_cases hc1 : Real.sqrt w ≥ 4
  · rw [if_pos (show Real.sqrt v ≥ 4 from hs16.mpr hc1),
      if_pos (show Real.sqrt w ≥ 4 from hc1)]
    simp
  · rw [if_neg (show ¬(Real.sqrt v ≥ 4) from fun hcon => hc1 (hs16.mp hcon)),
      if_neg (show ¬(Real.sqrt w ≥ 4) from hc1)]
    by_cases hc2 : Real.sqrt w ≥ 2
    · rw [if_pos (show Real.sqrt v ≥ 2 from hs4.mpr hc2),
        if_pos (show Real.sqrt w ≥ 2 from hc2)]
      simp
    · rw [if_neg (show ¬(Real.sqrt v ≥ 2) from fun hcon => hc2 (hs4.mp hcon)),
        if_neg (show ¬(Real.sqrt w ≥ 2) from hc2)]
      simp

/-- For 1-3 one-decimal lengths, the code's confidence (computed from the
variance centred at the rounded mean) agrees with the spec's pure function
of count and population σ, and carries a guidance message exactly in the
LOW cases. -/
lemma confidence_of_spec (L : List ℝ) (hmem : ∀ x ∈ L, ∃ k : ℤ, x = (k : ℝ) / 10)
    (h1 : 1 ≤ L.length) (h3 : L.length ≤ 3) :
    (confidence_of L (round1 (L.sum / (L.length : ℝ)))).1 =
      specConfidence L.length (popStdDev L) ∧
    ((confidence_of L (round1 (L.sum / (L.length : ℝ)))).2 ≠ none ↔
      (confidence_of L (round1 (L.sum / (L.length : ℝ)))).1 = "LOW") := by
  rcases L with _ | ⟨a, _ | ⟨b, _ | ⟨c, _ | ⟨d, tl⟩⟩⟩⟩
  · simp at h1
  · unfold confidence_of specConfidence
    simp only [List.length_cons, List.length_nil]
    simp
  · obtain ⟨p, hp⟩ := hmem a (by simp)
    obtain ⟨q, hq⟩ := hmem b (by simp)
    subst hp
    subst hq
    have hmean : ([(p : ℝ) / 10, (q : ℝ) / 10].sum /
        (([(p : ℝ) / 10, (q : ℝ) / 10].length : ℝ))) =
        ((p : ℝ) / 10 + (q : ℝ) / 10) / 2 := by
      simp only [List.sum_cons, List.sum_nil, List.length_cons, List.length_nil]
      push_cast
      ring
    rw [hmean]
    exact confidence_pair p q _ (abs_round1_sub_le _)
  · obtain ⟨p, hp⟩ := hmem a (by simp)
    obtain ⟨q, hq⟩ := hmem b (by simp)
    obtain ⟨r, hr⟩ := hmem c (by simp)
    subst hp
    subst hq
    subst hr
    have hmean : ([(p : ℝ) / 10, (q : ℝ) / 10, (r : ℝ) / 10].sum /
        (([(p : ℝ) / 10, (q : ℝ) / 10, (r : ℝ) / 10].length : ℝ))) =
        ((p : ℝ) / 10 + (q : ℝ) / 10 + (r : ℝ) / 10) / 3 := by
      simp only [List.sum_cons, List.sum_nil, List.length_cons, List.length_nil]
      push_cast
      ring
    have hsum : ((p : ℝ) / 10 + (q : ℝ) / 10 + (r : ℝ) / 10) / 3 =
        ((p + q + r : ℤ) : ℝ) / 30 := by
      push_cast
      ring
    rw [hmean]
    refine confidence_triple p q r _ ?_
    rw [hsum]
    exact abs_round1_third (p + q + r)
  · exfalso
    simp only [List.length_cons] at h3
    omega

/-- C4: the confidence status of `measure_leaf_length` is the pure function
of the count and the population standard deviation σ of the measured
(one-decimal) lengths claimed by the spec: one leaf gives LOW with a
guidance message; for two or more leaves, `σ ≥ 4` gives LOW with a guidance
message, `2 ≤ σ < 4` gives MEDIUM, and `σ < 2` gives HIGH, with no message
outside the LOW cases.  (The code centres its variance at the rounded
average, but for 1-3 one-decimal lengths that never flips a threshold: the
gap to the population variance is at most 1/400 resp. 1/900, and no
reachable variance lies that close below 4 or 16.) -/
theorem C4_confidence_from_count_and_sigma (cardData : List Point)
    (leaves : List LeafTrace) (res : MeasureResult)
    (h : measure_leaf_length cardData leaves = .ok res) :
    res.confidence_status =
      specConfidence res.leaf_lengths_cm.length (popStdDev res.leaf_lengths_cm) ∧
    (res.retake_message ≠ none ↔ res.confidence_status = "LOW") := by
  unfold measure_leaf_length at h
  split at h
  · exact absurd h (by simp)
  split at h
  · exact absurd h (by simp)
  rename_i hcount
  split at h
  · exact absurd h (by simp)
  split at h
  · exact absurd h (by simp)
  simp only [Except.ok.injEq] at h
  subst h
  dsimp only
  push_neg at hcount
  apply confidence_of_spec
  · intro x hx
    simp only [List.mem_map] at hx
    obtain ⟨l, _, rfl⟩ := hx
    exact ⟨round (10 * (pixelLen l / pixels_per_mm cardData / 10)), rfl⟩
  · simpa using hcount.1
  · simpa using hcount.2

/-- C4 (witness): the confidence contract at the shared concrete example
(two lengths 30.0 and 20.0: population σ = 5 ≥ 4, status LOW, message
present). -/
theorem C4_confidence_from_count_and_sigma_witness :
    "LOW" = specConfidence 2 (popStdDev [(30 : ℝ), 20]) ∧
    (some highVarMsg ≠ none ↔ "LOW" = "LOW") :=
  C4_confidence_from_count_and_sigma _ _ _ measure_example

end AloeMate
